import Mathlib

/-!
Verification of the incremental-search engine of `jove.py` (class `ISearchInfo`
and its inner class `StackItem`, lines 943-1266).

The embedding below is a shallow, executable translation of that Python code:

* `Region` models `sublime.Region` (only `begin`/`end` are used by the engine).
* `StackItem` models `ISearchInfo.StackItem`; the Python `prev` pointer chain is
  represented as a `List StackItem` inside `Engine` whose head is the current
  state (pushing conses, popping drops the head, walking `prev` walks the tail).
* `Engine` models the `ISearchInfo` instance state that the engine reads and
  writes: the state stack, the original anchor `point`, the live `forward` and
  `regex` flags, the buffer selection and the two highlight-region sets
  (`"find"` and `"selected"`), the mark, the `is_active` flag, whether the
  input panel / session is still open, and the class-level `last_search` slot.
* The host view's `find_all` is an external collaborator and is passed in as a
  function argument where the code calls it.
* Python's in-place mutation of `self.try_wrapped` inside `StackItem.step` is
  modelled by `step` returning both the optional new item and the (possibly
  updated) current item.
-/

namespace Jove

/-- `sublime.Region(a, b)`: `begin()` is the smaller endpoint, `end()` the
larger (the engine only creates and consumes these two accessors). -/
structure Region where
  a : Nat
  b : Nat
deriving DecidableEq, Repr

def Region.begin (r : Region) : Nat := min r.a r.b

def Region.end_ (r : Region) : Nat := max r.a r.b

/-- The flag bits `jove.py` passes to `view.find_all` (line 1041-1043):
`sublime.LITERAL` unless regex mode, plus `sublime.IGNORECASE` when the query
has no upper-case letter. -/
structure SearchFlags where
  literal : Bool
  ignorecase : Bool
deriving DecidableEq, Repr

/-- `re.search(r'[A-Z]', val)` of lines 1042 and 1203: does the string contain
an ASCII upper-case letter? -/
def containsUpper (s : String) : Bool :=
  s.data.any (fun c => 'A' ≤ c && c ≤ 'Z')

/-- Lines 1040-1043 of `ISearchInfo.find`: flag computation for `find_all`. -/
def isearchFlags (regex : Bool) (val : String) : SearchFlags :=
  { literal := !regex, ignorecase := !containsUpper val }

/-- One node of the search-history stack (`ISearchInfo.StackItem` fields,
lines 947-955; the `prev` pointer lives in `Engine.stack` instead). -/
structure StackItem where
  search : String
  regions : List Region
  selected : List Region
  current_index : Int
  forward : Bool
  try_wrapped : Bool
  wrapped : Bool
deriving DecidableEq, Repr

/-- `StackItem.__init__` (lines 947-958): stores the fields, sets
`try_wrapped = False`, and appends `regions[current_index]` to `selected`
when `current_index >= 0 and regions`. -/
def mkStackItem (search : String) (regions selected : List Region)
    (current_index : Int) (forward wrapped : Bool) : StackItem :=
  { search := search
    regions := regions
    selected :=
      if 0 ≤ current_index ∧ regions ≠ [] then
        selected ++ (regions.get? current_index.toNat).toList
      else selected
    current_index := current_index
    forward := forward
    try_wrapped := false
    wrapped := wrapped }

/-- `StackItem.get_point` (lines 960-964): the begin of the active match when
searching forward, its end when searching backward, `None` when there is no
active match. -/
def StackItem.get_point (si : StackItem) : Option Nat :=
  if 0 ≤ si.current_index then
    (si.regions.get? si.current_index.toNat).map
      (fun r => if si.forward then r.begin else r.end_)
  else none

/-- Lines 989-991 of `StackItem.step`: copy `selected`, dropping its last
element when `keep` is false and it is non-empty. -/
def StackItem.stepSelected (si : StackItem) (keep : Bool) : List Region :=
  if keep = false ∧ si.selected ≠ [] then si.selected.dropLast else si.selected

/-- `StackItem.step` (lines 972-992).  Returns `(pushed item?, updated self)`:
the Python method both returns the optional new `StackItem` and mutates
`self.try_wrapped` in place, so the updated current item is returned
explicitly here. -/
def StackItem.step (si : StackItem) (forward keep : Bool) :
    Option StackItem × StackItem :=
  let index := si.current_index
  let matches_ : Int := si.regions.length
  if si.regions ≠ [] ∧
      (index < 0 ∨ (index = 0 ∧ forward = false) ∨
        (index = matches_ - 1 ∧ forward = true)) then
    -- wrap around!
    let index := if forward then 0 else matches_ - 1
    if si.try_wrapped ∨ si.regions = [] then
      (some (mkStackItem si.search si.regions (si.stepSelected keep) index
          forward true),
        { si with try_wrapped := false })
    else
      (none, { si with try_wrapped := true })
  else if (forward = true ∧ index < matches_ - 1) ∨
      (forward = false ∧ index > 0) then
    let index := if forward then index + 1 else index - 1
    (some (mkStackItem si.search si.regions (si.stepSelected keep) index
        forward si.wrapped),
      si)
  else
    (none, si)

/-- The forward loop of `ISearchInfo.find_closest` (lines 1257-1261):
`enumerate` with running index `index`, returning the first index whose
region ends at or after `pos`, else `-1`. -/
def findClosestFwdAux : List Region → Nat → Nat → Int
  | [], _, _ => -1
  | r :: rest, pos, index =>
    if r.end_ ≥ pos then (index : Int)
    else findClosestFwdAux rest pos (index + 1)

/-- The backward loop of `ISearchInfo.find_closest` (lines 1262-1266):
returns `index - 1` at the first region whose begin is past `pos`, else
`len(regions) - 1`. `len` is the length of the full list. -/
def findClosestBwdAux : List Region → Nat → Nat → Nat → Int
  | [], _, _, len => (len : Int) - 1
  | r :: rest, pos, index, len =>
    if r.begin > pos then (index : Int) - 1
    else findClosestBwdAux rest pos (index + 1) len

/-- `ISearchInfo.find_closest` (lines 1249-1266). -/
def find_closest (regions : List Region) (pos : Nat) (forward : Bool) : Int :=
  if regions.length = 0 then -1
  else if forward then findClosestFwdAux regions pos 0
  else findClosestBwdAux regions pos 0 regions.length

/-- The `ISearchInfo` instance state (constructor lines 995-1006) together with
the host-visible effects the engine writes: the buffer selection, the mark
ring entry it records, the `"find"`/`"selected"` highlight sets, whether the
input panel / session registration is still open (`ViewState.isearch_info`
plus the panel opened in `open`), and the class attribute `last_search`.
`stack` is the `prev`-linked chain of `StackItem`s with the current state at
the head; it is non-empty in every reachable engine state. -/
structure Engine where
  stack : List StackItem
  point : Nat
  forward : Bool
  regex : Bool
  is_active : Bool
  panel_open : Bool
  selection : List Region
  mark : Option Nat
  hl_find : List Region
  hl_selected : List Region
  last_search : Option String
deriving DecidableEq

/-- `ISearchInfo.not_in_error` (lines 1106-1111): walk the `prev` chain while
the state has no selected spans and a non-empty search string. -/
def notInError : List StackItem → Option StackItem
  | [] => none
  | si :: rest =>
    if si.selected = [] ∧ si.search ≠ "" then notInError rest else some si

/-- `ISearchInfo.update` (lines 1138-1161), restricted to the state it writes:
the two highlight-region sets.  (The status-bar text and the
`ensure_visible` scroll are display-only and not modelled.)  When
`not_in_error` returns `None` the method returns without touching anything. -/
def Engine.update (e : Engine) : Engine :=
  match notInError e.stack with
  | none => e
  | some si => { e with hl_find := si.regions, hl_selected := si.selected }

/-- The anchor used by `ISearchInfo.find` (lines 1049-1054): the current
state's `get_point()` if it has one, else the session's original `point`. -/
def Engine.findAnchor (e : Engine) : Nat :=
  match e.stack.head? with
  | some cur => (cur.get_point).getD e.point
  | none => e.point

/-- `ISearchInfo.find` (lines 1039-1062).  `find_all` stands for the host's
`view.find_all`, called with the query and the computed flags.  A non-empty
query pushes `StackItem(val, regions, [], index, self.forward,
self.current.wrapped)` (line 1058); an empty query pushes nothing.  Both
paths end in `update()`. -/
def Engine.find (e : Engine) (find_all : String → SearchFlags → List Region)
    (val : String) : Engine :=
  if val.length > 0 then
    let regions := find_all val (isearchFlags e.regex val)
    let index := find_closest regions e.findAnchor e.forward
    let wrapped := match e.stack.head? with
      | some cur => cur.wrapped
      | none => false
    ({ e with
        stack := mkStackItem val regions [] index e.forward wrapped ::
          e.stack }).update
  else
    e.update

/-- `ISearchInfo.pop` (lines 1078-1085): when the current state has a
predecessor, make it current, restore its direction and refresh (the
`set_text` replay is display-only and suppressed via `in_changes`);
otherwise do nothing. -/
def Engine.pop (e : Engine) : Engine :=
  match e.stack with
  | _ :: p :: rest => ({ e with stack := p :: rest, forward := p.forward }).update
  | _ => e

/-- `ISearchInfo.finish` (lines 1113-1136): record `last_search`; unless
aborting, replace the buffer selection with the selected spans of the
`not_in_error` state when it has any (also recording the anchor as a mark);
otherwise restore the selection to the original anchor point (collapsed).
Always erase both highlight-region sets. -/
def Engine.finish (e : Engine) (abort : Bool) : Engine :=
  let e :=
    match e.stack.head? with
    | some cur =>
      if cur.search ≠ "" then { e with last_search := some cur.search } else e
    | none => e
  let committed : Option (List Region) :=
    if abort then none
    else
      match notInError e.stack with
      | some si => if si.selected ≠ [] then some si.selected else none
      | none => none
  match committed with
  | some sel =>
    { e with selection := sel, mark := some e.point,
             hl_find := [], hl_selected := [] }
  | none =>
    { e with selection := [⟨e.point, e.point⟩],
             hl_find := [], hl_selected := [] }

/-- `ISearchInfo.cancel` (lines 1226-1228): hide the panel (which also clears
the session registration via `on_cancel`) and `finish(abort=True)`.  The
`on_cancel` callback fired by `hide_panel` performs the same
`finish(abort=True)`, which is idempotent, so one application models both. -/
def Engine.cancel (e : Engine) : Engine :=
  ({ e with panel_open := false }).finish true

/-- `ISearchInfo.deactivate` (lines 1087-1089): clear `is_active` and call
`finish(abort=False)`. -/
def Engine.deactivate (e : Engine) : Engine :=
  ({ e with is_active := false }).finish false

/-- `ISearchInfo.next` (lines 1167-1179): at the root, re-inject
`last_search` (a non-suppressed `set_text`, which re-enters `find`);
otherwise step the current state, pushing and refreshing when the step
produced a new item.  `StackItem.step`'s in-place `try_wrapped` mutation is
reflected by replacing the stack head with the updated item. -/
def Engine.next (e : Engine) (find_all : String → SearchFlags → List Region)
    (keep : Bool) (forward : Option Bool) : Engine :=
  match e.stack with
  | [] => e
  | cur :: rest =>
    if rest.isEmpty then
      match e.last_search with
      | some s => e.find find_all s
      | none => e
    else
      let fwd := forward.getD cur.forward
      match cur.step fwd keep with
      | (some item, cur2) => ({ e with stack := item :: cur2 :: rest }).update
      | (none, cur2) => { e with stack := cur2 :: rest }

/-- The `while` loop of `ISearchInfo.quit` (lines 1239-1240): back the
current pointer up while it has a predecessor whose `regions` are empty. -/
def quitDrop : List StackItem → List StackItem
  | si :: p :: rest =>
    if p.regions = [] then quitDrop (p :: rest) else si :: p :: rest
  | l => l

/-- `ISearchInfo.quit` (lines 1230-1246): with matches, close down the whole
thing via `cancel`; otherwise back up past failing predecessors, then
`cancel` if the root was reached, else `pop` to the succeeding state. -/
def Engine.quit (e : Engine) : Engine :=
  match e.stack with
  | [] => e
  | cur :: rest =>
    if cur.regions ≠ [] then e.cancel
    else
      let stack2 := quitDrop (cur :: rest)
      if stack2.tail.isEmpty then ({ e with stack := stack2 }).cancel
      else ({ e with stack := stack2 }).pop

/-- `CmdHelper.is_word_char(pos, True, separators)` (lines 476-482), forward
form: the character at `pos` is neither whitespace nor one of the
configured separators. -/
def isWordChar (buf : List Char) (pos : Nat) (separators : List Char) : Bool :=
  match buf.get? pos with
  | some c => !([' ', '\t', '\r', '\n'].contains c || separators.contains c)
  | none => false

/-- The metacharacter string `"{}()[].*+"` of `append_one` (line 1206); the
braces are spelled by code point. -/
def regexMetaChars : List Char :=
  [Char.ofNat 123, Char.ofNat 125, '(', ')', '[', ']', '.', '*', '+']

/-- The nested `append_one` of `ISearchInfo.append_from_cursor`
(lines 1205-1208): escape regex metacharacters with a backslash in regex
mode. -/
def append_one (regex : Bool) (ch : Char) : String :=
  if regex ∧ regexMetaChars.contains ch then String.mk ['\\', ch]
  else String.mk [ch]

/-- Fuel-indexed form of the `while` loop of `append_from_cursor`
(lines 1217-1223): while the character at `point` is a word character,
fold it to lower case when the original search was case-insensitive, pass
it through `append_one` and append it.  The fuel is the number of
characters left in the buffer, which bounds the loop. -/
def growCharsFuel (regex case_sensitive : Bool) (buf sep : List Char) :
    Nat → Nat → String
  | _, 0 => ""
  | point, fuel + 1 =>
    if h : point < buf.length then
      if isWordChar buf point sep then
        let ch := buf.get ⟨point, h⟩
        let ch2 := if case_sensitive = false then ch.toLower else ch
        append_one regex ch2 ++
          growCharsFuel regex case_sensitive buf sep (point + 1) fuel
      else ""
    else ""

/-- The word-character tail of `append_from_cursor`'s growth, starting at
`point`. -/
def growChars (regex case_sensitive : Bool) (buf sep : List Char)
    (point : Nat) : String :=
  growCharsFuel regex case_sensitive buf sep point (buf.length - point)

/-- The query built by `ISearchInfo.append_from_cursor` (lines 1199-1223),
as a function of the buffer text, separators, starting point and current
search string.  The local variable `search` in that method is never read
back from the engine (each `on_change(search)` replays the string through
`find` but does not alter `search`, `point` or `limit`), so the final query
is this pure function of its inputs: append the character at `point`
unconditionally through `append_one`, then the word-character tail from
`point + 1` with `case_sensitive` inferred from the original search string
(line 1203). -/
def appendFromCursorQuery (regex : Bool) (buf sep : List Char) (point : Nat)
    (search : String) : String :=
  let limit := buf.length
  let case_sensitive := containsUpper search
  if h : point < limit then
    search ++ append_one regex (buf.get ⟨point, h⟩) ++
      growChars regex case_sensitive buf sep (point + 1)
  else search

/-!
Reference definitions taken from the specification's words (used only to
compare `find_closest` against the spec's description of it): forward search
should yield the index of the first match whose end is at or after the
anchor, backward search the index of the last match whose begin is at or
before the anchor, `-1` (the sentinel) when no such match exists.
-/

/-- Spec wording, forward: index of the first region whose end is `≥ pos`,
else `-1`. -/
def specFirstEndGE : List Region → Nat → Int
  | [], _ => -1
  | r :: rest, pos =>
    if pos ≤ r.end_ then 0
    else if 0 ≤ specFirstEndGE rest pos then specFirstEndGE rest pos + 1
    else -1

/-- Spec wording, backward: index of the last region whose begin is `≤ pos`,
else `-1`. -/
def specLastBeginLE : List Region → Nat → Int
  | [], _ => -1
  | r :: rest, pos =>
    if 0 ≤ specLastBeginLE rest pos then specLastBeginLE rest pos + 1
    else if r.begin ≤ pos then 0
    else -1

lemma specFirstEndGE_ge (regions : List Region) (pos : Nat) :
    -1 ≤ specFirstEndGE regions pos := by
  induction regions with
  | nil => simp [specFirstEndGE]
  | cons r rest ih =>
    simp only [specFirstEndGE]
    split
    · omega
    · split <;> omega

lemma specLastBeginLE_ge (regions : List Region) (pos : Nat) :
    -1 ≤ specLastBeginLE regions pos := by
  induction regions with
  | nil => simp [specLastBeginLE]
  | cons r rest ih =>
    simp only [specLastBeginLE]
    split
    · omega
    · split <;> omega

lemma specLastBeginLE_all_gt (regions : List Region) (pos : Nat)
    (h : ∀ r ∈ regions, pos < r.begin) :
    specLastBeginLE regions pos = -1 := by
  induction regions with
  | nil => rfl
  | cons r rest ih =>
    have hrest : specLastBeginLE rest pos = -1 :=
      ih (fun s hs => h s (List.mem_cons_of_mem r hs))
    have hr : pos < r.begin := h r (List.mem_cons_self r rest)
    simp only [specLastBeginLE, hrest]
    have h1 : ¬ (0:Int) ≤ -1 := by omega
    have h2 : ¬ r.begin ≤ pos := by omega
    simp [h1, h2]

lemma findClosestFwdAux_spec (regions : List Region) (pos : Nat) :
    ∀ i : Nat, findClosestFwdAux regions pos i =
      if 0 ≤ specFirstEndGE regions pos then specFirstEndGE regions pos + i
      else -1 := by
  induction regions with
  | nil => intro i; simp [findClosestFwdAux, specFirstEndGE]
  | cons r rest ih =>
    intro i
    simp only [findClosestFwdAux, specFirstEndGE]
    by_cases hr : pos ≤ r.end_
    · simp [hr, ge_iff_le]
    · have hr2 : ¬ r.end_ ≥ pos := hr
      rw [if_neg hr2, if_neg hr, ih (i + 1)]
      by_cases hs : 0 ≤ specFirstEndGE rest pos
      · rw [if_pos hs, if_pos (by omega)]
        push_cast
        omega
      · rw [if_neg hs, if_neg (by omega)]

lemma findClosestBwdAux_spec (regions : List Region) (pos : Nat)
    (hs : List.Pairwise (fun r s => r.begin ≤ s.begin) regions) :
    ∀ i : Nat, findClosestBwdAux regions pos i (i + regions.length) =
      if 0 ≤ specLastBeginLE regions pos then specLastBeginLE regions pos + i
      else (i : Int) - 1 := by
  induction regions with
  | nil =>
    intro i
    simp [findClosestBwdAux, specLastBeginLE]
  | cons r rest ih =>
    intro i
    rcases List.pairwise_cons.mp hs with ⟨hall, htail⟩
    simp only [findClosestBwdAux, specLastBeginLE]
    by_cases hr : r.begin > pos
    · have hzero : specLastBeginLE rest pos = -1 :=
        specLastBeginLE_all_gt rest pos
          (fun s hsmem => lt_of_lt_of_le hr (hall s hsmem))
      rw [if_pos hr, hzero]
      have h1 : ¬ (0:Int) ≤ -1 := by omega
      have h2 : ¬ r.begin ≤ pos := by omega
      simp [h1, h2]
    · have harr : i + (r :: rest).length = (i + 1) + rest.length := by
        simp [List.length_cons]; omega
      rw [if_neg hr, harr, ih htail (i + 1)]
      have hble : r.begin ≤ pos := by omega
      by_cases h0 : 0 ≤ specLastBeginLE rest pos
      · rw [if_pos h0, if_pos (by omega)]
        push_cast
        omega
      · simp only [if_neg h0, if_pos hble, if_pos (le_refl (0:Int))]
        push_cast
        omega

/-- C7: for every sorted match list and anchor, `find_closest` returns,
forward, the index of the first match whose end is at or after the anchor
(`-1` if none), and, backward, the index of the last match whose begin is at
or before the anchor (`-1` if none). -/
theorem find_closest_first_end_ge_last_begin_le (regions : List Region)
    (pos : Nat)
    (hs : List.Pairwise (fun r s => r.begin ≤ s.begin) regions) :
    find_closest regions pos true = specFirstEndGE regions pos ∧
    find_closest regions pos false = specLastBeginLE regions pos := by
  constructor
  · unfold find_closest
    by_cases hlen : regions.length = 0
    · rw [if_pos hlen]
      rw [List.length_eq_zero.mp hlen]
      rfl
    · rw [if_neg hlen, if_pos rfl, findClosestFwdAux_spec regions pos 0]
      have := specFirstEndGE_ge regions pos
      by_cases h0 : 0 ≤ specFirstEndGE regions pos
      · rw [if_pos h0]; omega
      · rw [if_neg h0]; omega
  · unfold find_closest
    by_cases hlen : regions.length = 0
    · rw [if_pos hlen]
      rw [List.length_eq_zero.mp hlen]
      rfl
    · rw [if_neg hlen, if_neg (by simp : ¬ (false = true))]
      have harr : regions.length = 0 + regions.length := by omega
      rw [show findClosestBwdAux regions pos 0 regions.length =
            findClosestBwdAux regions pos 0 (0 + regions.length) by rw [← harr]]
      rw [findClosestBwdAux_spec regions pos hs 0]
      have := specLastBeginLE_ge regions pos
      by_cases h0 : 0 ≤ specLastBeginLE regions pos
      · simp [if_pos h0]
      · rw [if_neg h0]; omega

/-- C7 witness: the spec's own example layout, three matches of `"ab"` in
`"ab ab ab"` with the anchor at offset 3, plus the backward direction. -/
theorem find_closest_spec_witness :
    find_closest [⟨0,2⟩, ⟨3,5⟩, ⟨6,8⟩] 3 true =
        specFirstEndGE [⟨0,2⟩, ⟨3,5⟩, ⟨6,8⟩] 3 ∧
      find_closest [⟨0,2⟩, ⟨3,5⟩, ⟨6,8⟩] 3 false =
        specLastBeginLE [⟨0,2⟩, ⟨3,5⟩, ⟨6,8⟩] 3 :=
  find_closest_first_end_ge_last_begin_le [⟨0,2⟩, ⟨3,5⟩, ⟨6,8⟩] 3 (by decide)

/-! Projection lemmas for `Engine.update` and `Engine.finish`. -/

lemma update_stack (e : Engine) : (e.update).stack = e.stack := by
  unfold Engine.update; split <;> rfl

lemma update_selection (e : Engine) : (e.update).selection = e.selection := by
  unfold Engine.update; split <;> rfl

lemma update_panel_open (e : Engine) : (e.update).panel_open = e.panel_open := by
  unfold Engine.update; split <;> rfl

lemma update_point (e : Engine) : (e.update).point = e.point := by
  unfold Engine.update; split <;> rfl

lemma update_forward (e : Engine) : (e.update).forward = e.forward := by
  unfold Engine.update; split <;> rfl

lemma finish_is_active (e : Engine) (abort : Bool) :
    (e.finish abort).is_active = e.is_active := by
  unfold Engine.finish
  dsimp only
  repeat' split
  all_goals rfl

lemma finish_panel_open (e : Engine) (abort : Bool) :
    (e.finish abort).panel_open = e.panel_open := by
  unfold Engine.finish
  dsimp only
  repeat' split
  all_goals rfl

lemma finish_point (e : Engine) (abort : Bool) :
    (e.finish abort).point = e.point := by
  unfold Engine.finish
  dsimp only
  repeat' split
  all_goals rfl

lemma finish_hl_find (e : Engine) (abort : Bool) :
    (e.finish abort).hl_find = [] := by
  unfold Engine.finish
  dsimp only
  repeat' split
  all_goals rfl

lemma finish_hl_selected (e : Engine) (abort : Bool) :
    (e.finish abort).hl_selected = [] := by
  unfold Engine.finish
  dsimp only
  repeat' split
  all_goals rfl

lemma finish_true_selection (e : Engine) :
    (e.finish true).selection = [⟨e.point, e.point⟩] := by
  unfold Engine.finish
  dsimp only
  repeat' split
  all_goals simp_all

lemma finish_false_selection (e : Engine) :
    (e.finish false).selection =
      (match notInError e.stack with
       | some si => if si.selected ≠ [] then si.selected else [⟨e.point, e.point⟩]
       | none => [⟨e.point, e.point⟩]) := by
  unfold Engine.finish
  cases hh : e.stack.head? with
  | none =>
    cases hn : notInError e.stack with
    | none => simp [hn]
    | some si =>
      by_cases hsel : si.selected = [] <;> simp_all
  | some cur =>
    by_cases hs : cur.search = "" <;>
      cases hn : notInError e.stack with
      | none => simp_all
      | some si => by_cases hsel : si.selected = [] <;> simp_all

lemma cancel_selection (e : Engine) :
    (e.cancel).selection = [⟨e.point, e.point⟩] := by
  unfold Engine.cancel
  rw [finish_true_selection]

lemma cancel_panel_open (e : Engine) : (e.cancel).panel_open = false := by
  unfold Engine.cancel
  rw [finish_panel_open]

lemma cancel_hl_find (e : Engine) : (e.cancel).hl_find = [] := by
  unfold Engine.cancel
  rw [finish_hl_find]

lemma cancel_hl_selected (e : Engine) : (e.cancel).hl_selected = [] := by
  unfold Engine.cancel
  rw [finish_hl_selected]

/-- C1 (amended): when the current state has at least one match (the search
is succeeding), `quit()` behaves as `cancel()`, not as `commit`: the session
is closed and the buffer's selection is restored to the original anchor
point (collapsed), regardless of any accumulated selected spans. -/
theorem quit_succeeding_is_cancel (e : Engine) (cur : StackItem)
    (rest : List StackItem) (hstack : e.stack = cur :: rest)
    (hreg : cur.regions ≠ []) :
    e.quit = e.cancel ∧
    (e.quit).selection = [⟨e.point, e.point⟩] ∧
    (e.quit).panel_open = false := by
  have hq : e.quit = e.cancel := by
    unfold Engine.quit
    rw [hstack]
    exact if_pos hreg
  refine ⟨hq, ?_, ?_⟩
  · rw [hq, cancel_selection]
  · rw [hq, cancel_panel_open]

def c1Root : StackItem := mkStackItem "" [] [] (-1) true false

def c1Top : StackItem :=
  { search := "ab", regions := [⟨2,4⟩], selected := [⟨2,4⟩],
    current_index := 0, forward := true, try_wrapped := false,
    wrapped := false }

def c1Engine : Engine :=
  { stack := [c1Top, c1Root], point := 0, forward := true, regex := false,
    is_active := true, panel_open := true, selection := [⟨0,0⟩], mark := none,
    hl_find := [⟨2,4⟩], hl_selected := [⟨2,4⟩], last_search := none }

/-- C1 witness: a concrete succeeding session on which `quit` closes and
restores the anchor selection. -/
theorem quit_succeeding_is_cancel_witness :
    c1Engine.quit = c1Engine.cancel ∧
    (c1Engine.quit).selection = [⟨c1Engine.point, c1Engine.point⟩] ∧
    (c1Engine.quit).panel_open = false :=
  quit_succeeding_is_cancel c1Engine c1Top [c1Root] rfl (by decide)

/-- C1 counterexample to the claim as stated: in a succeeding session whose
nearest state with selected spans holds `[⟨2,4⟩]`, `quit()` sets the selection
to the collapsed anchor `[⟨0,0⟩]`, not to the selected spans as `commit`
would. -/
theorem quit_succeeding_commit_counterexample :
    c1Engine.stack.head?.map StackItem.regions = some [⟨2,4⟩] ∧
    notInError c1Engine.stack = some c1Top ∧
    c1Top.selected = [⟨2,4⟩] ∧
    (c1Engine.quit).selection = [⟨0,0⟩] ∧
    ([⟨0,0⟩] : List Region) ≠ [⟨2,4⟩] := by decide

/-- C4 (amended): host-forced deactivation clears `is_active` and finishes
the session as a *commit* (`finish(abort=False)`), not as a cancel: the
selection becomes the selected spans of the nearest state with selected
spans when one exists (only otherwise is it restored to the anchor), and
both highlight sets are erased. -/
theorem deactivate_finishes_as_commit (e : Engine) :
    e.deactivate = ({ e with is_active := false }).finish false ∧
    (e.deactivate).is_active = false ∧
    (e.deactivate).hl_find = [] ∧
    (e.deactivate).hl_selected = [] ∧
    (e.deactivate).selection =
      (match notInError e.stack with
       | some si => if si.selected ≠ [] then si.selected
                    else [⟨e.point, e.point⟩]
       | none => [⟨e.point, e.point⟩]) := by
  refine ⟨rfl, ?_, ?_, ?_, ?_⟩
  · unfold Engine.deactivate
    rw [finish_is_active]
  · unfold Engine.deactivate
    rw [finish_hl_find]
  · unfold Engine.deactivate
    rw [finish_hl_selected]
  · unfold Engine.deactivate
    rw [finish_false_selection]

def c4Root : StackItem := mkStackItem "" [] [] (-1) true false

def c4Top : StackItem :=
  { search := "ab", regions := [⟨2,4⟩], selected := [⟨2,4⟩],
    current_index := 0, forward := true, try_wrapped := false,
    wrapped := false }

def c4Engine : Engine :=
  { stack := [c4Top, c4Root], point := 0, forward := true, regex := false,
    is_active := true, panel_open := true, selection := [⟨0,0⟩], mark := none,
    hl_find := [⟨2,4⟩], hl_selected := [⟨2,4⟩], last_search := none }

/-- C4 counterexample to the claim as stated: mid-session with accumulated
selected span `⟨2,4⟩` and anchor 0, forced deactivation leaves the selection
at `[⟨2,4⟩]` — the commit outcome — rather than restoring the anchor
`[⟨0,0⟩]` as a cancel would. -/
theorem deactivate_cancel_claim_counterexample :
    c4Engine.point = 0 ∧
    (c4Engine.deactivate).selection = [⟨2,4⟩] ∧
    ([⟨2,4⟩] : List Region) ≠ [⟨0,0⟩] := by decide

/-- C2 (amended): for a non-empty new query, `find` pushes a state whose
`selected` list starts as a *fresh empty list* — the previous state's
`selected` is not carried forward (line 1058 passes `[]`) — with the newly
active match's span appended exactly when the closest-match index is not the
sentinel; the previous states are untouched (the new stack is the old stack
with one state consed on). -/
theorem find_pushes_fresh_selected (e : Engine)
    (fa : String → SearchFlags → List Region) (val : String)
    (hval : 0 < val.length) :
    (e.find fa val).stack.tail = e.stack ∧
    (e.find fa val).stack.head?.map StackItem.selected =
      some (if 0 ≤ find_closest (fa val (isearchFlags e.regex val))
                e.findAnchor e.forward ∧
              fa val (isearchFlags e.regex val) ≠ [] then
              ((fa val (isearchFlags e.regex val)).get?
                (find_closest (fa val (isearchFlags e.regex val))
                  e.findAnchor e.forward).toNat).toList
            else []) := by
  unfold Engine.find
  rw [if_pos hval]
  constructor
  · rw [update_stack]
    rfl
  · rw [update_stack]
    simp only [List.head?_cons, Option.map_some', mkStackItem]
    split <;> simp


def c2Root : StackItem := mkStackItem "" [] [] (-1) true false

def c2Top : StackItem :=
  { search := "a", regions := [⟨0,1⟩], selected := [⟨9,10⟩],
    current_index := 0, forward := true, try_wrapped := false,
    wrapped := false }

def c2Engine : Engine :=
  { stack := [c2Top, c2Root], point := 0, forward := true, regex := false,
    is_active := true, panel_open := true, selection := [⟨0,0⟩], mark := none,
    hl_find := [], hl_selected := [], last_search := none }

def c2FindAll : String → SearchFlags → List Region :=
  fun s _ => if s = "ab" then [⟨0,2⟩] else []

/-- C2 witness: the amended statement applied to a concrete engine and
`find_all` oracle. -/
theorem find_pushes_fresh_selected_witness :
    (c2Engine.find c2FindAll "ab").stack.tail = c2Engine.stack ∧
    (c2Engine.find c2FindAll "ab").stack.head?.map StackItem.selected =
      some (if 0 ≤ find_closest (c2FindAll "ab" (isearchFlags c2Engine.regex "ab"))
                c2Engine.findAnchor c2Engine.forward ∧
              c2FindAll "ab" (isearchFlags c2Engine.regex "ab") ≠ [] then
              ((c2FindAll "ab" (isearchFlags c2Engine.regex "ab")).get?
                (find_closest (c2FindAll "ab" (isearchFlags c2Engine.regex "ab"))
                  c2Engine.findAnchor c2Engine.forward).toNat).toList
            else []) :=
  find_pushes_fresh_selected c2Engine c2FindAll "ab" (by decide)

/-- C2 counterexample to the claim as stated: the predecessor state's
`selected` is `[⟨9,10⟩]`, the newly active match is `⟨0,2⟩`, and after the
query change the new state's `selected` is `[⟨0,2⟩]` — not the carried-over
`[⟨9,10⟩, ⟨0,2⟩]` the claim predicts. -/
theorem find_carries_selected_counterexample :
    c2Engine.stack.head?.map StackItem.selected = some [⟨9,10⟩] ∧
    (c2Engine.find c2FindAll "ab").stack.head?.map StackItem.selected =
      some [⟨0,2⟩] ∧
    ([⟨0,2⟩] : List Region) ≠ [⟨9,10⟩, ⟨0,2⟩] := by decide

/-- C5 (amended): the anchor `find` uses for the closest-match computation
is the *begin* of the current active match when searching forward and its
*end* when searching backward (`get_point`, lines 960-964); when there is no
active match it is the session's original anchor point. -/
theorem find_anchor_begin_forward_end_backward (e : Engine)
    (cur : StackItem) (hstack : e.stack.head? = some cur) :
    (∀ r, 0 ≤ cur.current_index →
        cur.regions.get? cur.current_index.toNat = some r →
        e.findAnchor = (if cur.forward = true then r.begin else r.end_)) ∧
    (cur.current_index < 0 → e.findAnchor = e.point) := by
  constructor
  · intro r h0 hr
    unfold Engine.findAnchor
    rw [hstack]
    dsimp only
    unfold StackItem.get_point
    rw [if_pos h0, hr]
    rfl
  · intro hneg
    unfold Engine.findAnchor
    rw [hstack]
    dsimp only
    unfold StackItem.get_point
    rw [if_neg (by omega)]
    rfl

def c5Root : StackItem := mkStackItem "" [] [] (-1) true false

def c5Top : StackItem :=
  { search := "b", regions := [⟨1,3⟩], selected := [⟨1,3⟩],
    current_index := 0, forward := true, try_wrapped := false,
    wrapped := false }

def c5Engine : Engine :=
  { stack := [c5Top, c5Root], point := 7, forward := true, regex := false,
    is_active := true, panel_open := true, selection := [⟨7,7⟩], mark := none,
    hl_find := [⟨1,3⟩], hl_selected := [⟨1,3⟩], last_search := none }

/-- C5 witness: concrete forward session whose active match is `⟨1,3⟩`; the
anchor is its begin. -/
theorem find_anchor_begin_forward_witness :
    c5Engine.findAnchor =
      (if c5Top.forward = true then Region.begin ⟨1,3⟩ else Region.end_ ⟨1,3⟩) :=
  (find_anchor_begin_forward_end_backward c5Engine c5Top rfl).1
    ⟨1,3⟩ (by decide) (by decide)

/-- C5 counterexample to the claim as stated: searching forward with active
match `⟨1,3⟩`, the anchor is 1 (the match's begin), not 3 (its end) as the
claim predicts. -/
theorem find_anchor_end_forward_counterexample :
    c5Engine.stack.head?.map StackItem.forward = some true ∧
    (c5Engine.stack.head?.bind fun si =>
        si.regions.get? si.current_index.toNat) = some ⟨1,3⟩ ∧
    c5Engine.findAnchor = 1 ∧
    Region.end_ ⟨1,3⟩ = 3 ∧ (1 : Nat) ≠ 3 := by decide

/-- Any successful `step` (one that returns a new item) keeps the same match
list, lands on an in-range index, builds the new `selected` from
`stepSelected` plus the newly active match, and leaves the current item's
`selected` untouched. -/
lemma step_push_selected (cur : StackItem) (forward keep : Bool)
    (item cur2 : StackItem)
    (hreg : cur.regions ≠ [])
    (hidx : cur.current_index < (cur.regions.length : Int))
    (hstep : cur.step forward keep = (some item, cur2)) :
    item.regions = cur.regions ∧
    0 ≤ item.current_index ∧
    item.current_index.toNat < cur.regions.length ∧
    item.selected =
      cur.stepSelected keep ++
        (cur.regions.get? item.current_index.toNat).toList ∧
    cur2.selected = cur.selected := by
  have hm : 0 < cur.regions.length := List.length_pos.mpr hreg
  unfold StackItem.step at hstep
  dsimp only at hstep
  split at hstep
  · rename_i h1
    split at hstep
    · rename_i h2
      rw [Prod.mk.injEq, Option.some.injEq] at hstep
      obtain ⟨hi, hc⟩ := hstep
      subst hi
      subst hc
      have h0le : 0 ≤ (if forward = true then 0
          else (cur.regions.length : Int) - 1) := by
        split <;> omega
      have hlt : (if forward = true then 0
          else (cur.regions.length : Int) - 1).toNat < cur.regions.length := by
        rw [Int.toNat_lt h0le]
        split <;> omega
      refine ⟨rfl, h0le, hlt, ?_, rfl⟩
      simp only [mkStackItem]
      rw [if_pos (And.intro h0le hreg)]
    · simp at hstep
  · rename_i h1
    split at hstep
    · rename_i h3
      simp only [hreg, ne_eq, not_false_eq_true, true_and, not_or] at h1
      obtain ⟨hn1, hn2, hn3⟩ := h1
      rcases h3 with ⟨hf, hlt3⟩ | ⟨hf, hgt3⟩ <;> subst hf
      · rw [if_pos rfl] at hstep
        rw [Prod.mk.injEq, Option.some.injEq] at hstep
        obtain ⟨hi, hc⟩ := hstep
        subst hi
        subst hc
        have h0le : 0 ≤ cur.current_index + 1 := by omega
        have hlt : (cur.current_index + 1).toNat < cur.regions.length := by
          rw [Int.toNat_lt h0le]
          omega
        refine ⟨rfl, h0le, hlt, ?_, rfl⟩
        simp only [mkStackItem]
        rw [if_pos (And.intro h0le hreg)]
      · rw [if_neg (by simp)] at hstep
        rw [Prod.mk.injEq, Option.some.injEq] at hstep
        obtain ⟨hi, hc⟩ := hstep
        subst hi
        subst hc
        have h0le : 0 ≤ cur.current_index - 1 := by omega
        have hlt : (cur.current_index - 1).toNat < cur.regions.length := by
          rw [Int.toNat_lt h0le]
          omega
        refine ⟨rfl, h0le, hlt, ?_, rfl⟩
        simp only [mkStackItem]
        rw [if_pos (And.intro h0le hreg)]
    · simp at hstep

/-- C6: a step that advances to a new match `B` from a state whose selected
list ends with `A` yields `selected = old ++ [B]` with `keepPrevious`, and
drops `A` before appending `B` without it; the stepped-from state's selected
list is unchanged. -/
theorem step_keep_vs_replace (cur : StackItem) (forward keep : Bool)
    (item cur2 : StackItem) (l : List Region) (A : Region)
    (hsel : cur.selected = l ++ [A])
    (hreg : cur.regions ≠ [])
    (hidx : cur.current_index < (cur.regions.length : Int))
    (hstep : cur.step forward keep = (some item, cur2)) :
    (∃ B, item.regions.get? item.current_index.toNat = some B ∧
        item.selected = (if keep = true then l ++ [A] else l) ++ [B]) ∧
    cur2.selected = cur.selected := by
  obtain ⟨hregs, h0le, hlt, hselout, hc2⟩ :=
    step_push_selected cur forward keep item cur2 hreg hidx hstep
  have hstepsel : cur.stepSelected keep = (if keep = true then l ++ [A] else l) := by
    unfold StackItem.stepSelected
    cases keep with
    | true => simp [hsel]
    | false =>
      have hne : cur.selected ≠ [] := by simp [hsel]
      simp only [hsel, hne, and_true, if_pos, List.dropLast_concat]
      simp
  refine ⟨⟨cur.regions.get ⟨item.current_index.toNat, hlt⟩, ?_, ?_⟩, hc2⟩
  · rw [hregs]
    exact List.get?_eq_get hlt
  · rw [hselout, hstepsel, List.get?_eq_get hlt]
    simp

def c6Cur : StackItem :=
  { search := "a", regions := [⟨0,1⟩, ⟨2,3⟩], selected := [⟨0,1⟩],
    current_index := 0, forward := true, try_wrapped := false,
    wrapped := false }

def c6New : StackItem :=
  { search := "a", regions := [⟨0,1⟩, ⟨2,3⟩], selected := [⟨0,1⟩, ⟨2,3⟩],
    current_index := 1, forward := true, try_wrapped := false,
    wrapped := false }

/-- C6 witness: a concrete keeping step from `selected = [A]` with `A = ⟨0,1⟩`
advancing to `B = ⟨2,3⟩`. -/
theorem step_keep_vs_replace_witness :
    (∃ B, c6New.regions.get? c6New.current_index.toNat = some B ∧
        c6New.selected = (if true = true then [] ++ [(⟨0,1⟩ : Region)] else []) ++ [B]) ∧
    c6Cur.selected = c6Cur.selected :=
  step_keep_vs_replace c6Cur true true c6New c6Cur [] ⟨0,1⟩ (by decide)
    (by decide) (by decide) (by decide)

/-- A boundary step with the pending-wrap flag clear arms the flag on the
current item and pushes nothing (lines 975-983, `else` arm). -/
lemma step_arms_wrap (si : StackItem) (keep : Bool)
    (hreg : si.regions ≠ []) (htw : si.try_wrapped = false)
    (hb : (si.forward = true ∧
             si.current_index = (si.regions.length : Int) - 1) ∨
          (si.forward = false ∧ si.current_index = 0)) :
    si.step si.forward keep = (none, { si with try_wrapped := true }) := by
  have hcond : si.regions ≠ [] ∧
      (si.current_index < 0 ∨
        (si.current_index = 0 ∧ si.forward = false) ∨
        (si.current_index = (si.regions.length : Int) - 1 ∧
          si.forward = true)) := by
    rcases hb with ⟨hf, hi⟩ | ⟨hf, hi⟩
    · exact ⟨hreg, Or.inr (Or.inr ⟨hi, hf⟩)⟩
    · exact ⟨hreg, Or.inr (Or.inl ⟨hi, hf⟩)⟩
  unfold StackItem.step
  dsimp only
  rw [if_pos hcond, if_neg (by simp [htw, hreg])]

/-- A boundary step with the pending-wrap flag set confirms the wrap: it
pushes a state at index 0 (forward) or `m-1` (backward) marked wrapped, and
clears the flag on the current item (lines 975-980, `then` arm). -/
lemma step_confirms_wrap (si : StackItem) (keep : Bool)
    (hreg : si.regions ≠ []) (htw : si.try_wrapped = true)
    (hb : (si.forward = true ∧
             si.current_index = (si.regions.length : Int) - 1) ∨
          (si.forward = false ∧ si.current_index = 0)) :
    si.step si.forward keep =
      (some (mkStackItem si.search si.regions (si.stepSelected keep)
          (if si.forward = true then 0 else (si.regions.length : Int) - 1)
          si.forward true),
        { si with try_wrapped := false }) := by
  have hcond : si.regions ≠ [] ∧
      (si.current_index < 0 ∨
        (si.current_index = 0 ∧ si.forward = false) ∨
        (si.current_index = (si.regions.length : Int) - 1 ∧
          si.forward = true)) := by
    rcases hb with ⟨hf, hi⟩ | ⟨hf, hi⟩
    · exact ⟨hreg, Or.inr (Or.inr ⟨hi, hf⟩)⟩
    · exact ⟨hreg, Or.inr (Or.inl ⟨hi, hf⟩)⟩
  unfold StackItem.step
  dsimp only
  rw [if_pos hcond, if_pos (Or.inl htw)]

/-- C3: from a state with matches whose active index sits at the boundary in
the direction of travel and whose pending-wrap flag is clear, the first
`next` call pushes nothing and only arms the pending-wrap flag on the
current state (the rest of the engine is untouched); the immediately
following identical call pushes a state with active index 0 (forward) or
`m-1` (backward), `wrapped = true` and a clear pending-wrap flag, clearing
the flag on the armed state as well. -/
theorem two_phase_wrap (e : Engine)
    (fa : String → SearchFlags → List Region) (keep : Bool)
    (cur p : StackItem) (rest : List StackItem)
    (hstack : e.stack = cur :: p :: rest)
    (hreg : cur.regions ≠ [])
    (hb : (cur.forward = true ∧
             cur.current_index = (cur.regions.length : Int) - 1) ∨
          (cur.forward = false ∧ cur.current_index = 0))
    (htw : cur.try_wrapped = false) :
    (e.next fa keep none).stack =
      { cur with try_wrapped := true } :: p :: rest ∧
    (e.next fa keep none).selection = e.selection ∧
    (e.next fa keep none).hl_find = e.hl_find ∧
    (e.next fa keep none).hl_selected = e.hl_selected ∧
    ((e.next fa keep none).next fa keep none).stack.length =
      e.stack.length + 1 ∧
    ((e.next fa keep none).next fa keep none).stack.head?.map
        StackItem.current_index =
      some (if cur.forward = true then 0 else (cur.regions.length : Int) - 1) ∧
    ((e.next fa keep none).next fa keep none).stack.head?.map
        StackItem.wrapped = some true ∧
    ((e.next fa keep none).next fa keep none).stack.head?.map
        StackItem.try_wrapped = some false ∧
    (((e.next fa keep none).next fa keep none).stack.get? 1).map
        StackItem.try_wrapped = some false := by
  have h1 : e.next fa keep none =
      { e with stack := { cur with try_wrapped := true } :: p :: rest } := by
    unfold Engine.next
    rw [hstack]
    dsimp only
    simp only [List.isEmpty_cons, Bool.false_eq_true, if_false,
      Option.getD_none]
    rw [step_arms_wrap cur keep hreg htw hb]
  have hb2 : ({ cur with try_wrapped := true } : StackItem).forward = true ∧
        ({ cur with try_wrapped := true } : StackItem).current_index =
          (({ cur with try_wrapped := true } : StackItem).regions.length : Int)
            - 1 ∨
      ({ cur with try_wrapped := true } : StackItem).forward = false ∧
        ({ cur with try_wrapped := true } : StackItem).current_index = 0 :=
    hb
  have h2 : (e.next fa keep none).next fa keep none =
      ({ e with
          stack := mkStackItem cur.search cur.regions
              (StackItem.stepSelected { cur with try_wrapped := true } keep)
              (if cur.forward = true then 0
                else (cur.regions.length : Int) - 1)
              cur.forward true ::
            { cur with try_wrapped := false } :: p :: rest }).update := by
    rw [h1]
    unfold Engine.next
    dsimp only
    simp only [List.isEmpty_cons, Bool.false_eq_true, if_false,
      Option.getD_none]
    rw [step_confirms_wrap { cur with try_wrapped := true } keep hreg rfl hb2]
  refine ⟨by rw [h1], by rw [h1], by rw [h1], by rw [h1], ?_, ?_, ?_, ?_, ?_⟩
  · rw [h2, update_stack, hstack]
    simp [List.length_cons]
  · rw [h2, update_stack]
    simp [mkStackItem]
  · rw [h2, update_stack]
    simp [mkStackItem]
  · rw [h2, update_stack]
    simp [mkStackItem]
  · rw [h2, update_stack]
    simp

def c3Root : StackItem := mkStackItem "" [] [] (-1) true false

def c3Cur : StackItem :=
  { search := "a", regions := [⟨0,1⟩, ⟨2,3⟩], selected := [⟨2,3⟩],
    current_index := 1, forward := true, try_wrapped := false,
    wrapped := false }

def c3Engine : Engine :=
  { stack := [c3Cur, c3Root], point := 4, forward := true, regex := false,
    is_active := true, panel_open := true, selection := [⟨4,4⟩], mark := none,
    hl_find := [⟨0,1⟩, ⟨2,3⟩], hl_selected := [⟨2,3⟩], last_search := none }

def c3FindAll : String → SearchFlags → List Region := fun _ _ => []

/-- C3 witness: a concrete forward session at the last match; the theorem's
two-phase wrap conclusion at that input. -/
theorem two_phase_wrap_witness :
    (c3Engine.next c3FindAll true none).stack =
      { c3Cur with try_wrapped := true } :: c3Root :: [] ∧
    (c3Engine.next c3FindAll true none).selection = c3Engine.selection ∧
    (c3Engine.next c3FindAll true none).hl_find = c3Engine.hl_find ∧
    (c3Engine.next c3FindAll true none).hl_selected = c3Engine.hl_selected ∧
    ((c3Engine.next c3FindAll true none).next c3FindAll true none).stack.length =
      c3Engine.stack.length + 1 ∧
    ((c3Engine.next c3FindAll true none).next c3FindAll true none).stack.head?.map
        StackItem.current_index =
      some (if c3Cur.forward = true then 0
            else (c3Cur.regions.length : Int) - 1) ∧
    ((c3Engine.next c3FindAll true none).next c3FindAll true none).stack.head?.map
        StackItem.wrapped = some true ∧
    ((c3Engine.next c3FindAll true none).next c3FindAll true none).stack.head?.map
        StackItem.try_wrapped = some false ∧
    (((c3Engine.next c3FindAll true none).next c3FindAll true none).stack.get? 1).map
        StackItem.try_wrapped = some false :=
  two_phase_wrap c3Engine c3FindAll true c3Cur c3Root [] rfl (by decide)
    (Or.inl (by decide)) (by decide)

/-- C8: `quit()` on a failing current state pops back past failing
predecessors: when some ancestor has matches, the session stays open at the
first such ancestor with no finish side effects; when none has (the root is
reached), the session is closed as a cancel and the selection is restored to
the collapsed anchor. -/
theorem quit_failing_pops_to_matching (e : Engine) (cur : StackItem)
    (rest : List StackItem)
    (hstack : e.stack = cur :: rest) (hfail : cur.regions = []) :
    match rest.find? (fun si => !si.regions.isEmpty) with
    | some target =>
        (e.quit).stack.head? = some target ∧
        (e.quit).panel_open = e.panel_open ∧
        (e.quit).selection = e.selection
    | none =>
        (e.quit).panel_open = false ∧
        (e.quit).selection = [⟨e.point, e.point⟩] := by
  induction rest generalizing e cur with
  | nil =>
    simp only [List.find?_nil]
    have hq : e.quit = ({ e with stack := [cur] }).cancel := by
      unfold Engine.quit
      rw [hstack]
      dsimp only
      rw [if_neg (by simp [hfail])]
      dsimp only [quitDrop]
      rw [if_pos (by simp : ([cur] : List StackItem).tail.isEmpty = true)]
    rw [hq]
    exact ⟨cancel_panel_open _, cancel_selection _⟩
  | cons p rest2 ih =>
    by_cases hp : p.regions = []
    · have hfind : (p :: rest2).find? (fun si => !si.regions.isEmpty) =
          rest2.find? (fun si => !si.regions.isEmpty) := by
        rw [List.find?_cons_of_neg]
        simp [hp]
      rw [hfind]
      have hdrop : quitDrop (cur :: p :: rest2) = quitDrop (p :: rest2) := by
        simp only [quitDrop]
        rw [if_pos hp]
      have hq : e.quit = ({ e with stack := p :: rest2 } : Engine).quit := by
        have hl : e.quit =
            (if (quitDrop (p :: rest2)).tail.isEmpty = true
              then ({ e with stack := quitDrop (p :: rest2) }).cancel
              else ({ e with stack := quitDrop (p :: rest2) }).pop) := by
          unfold Engine.quit
          rw [hstack]
          dsimp only
          rw [if_neg (by simp [hfail]), hdrop]
        have hr : ({ e with stack := p :: rest2 } : Engine).quit =
            (if (quitDrop (p :: rest2)).tail.isEmpty = true
              then ({ e with stack := quitDrop (p :: rest2) }).cancel
              else ({ e with stack := quitDrop (p :: rest2) }).pop) := by
          unfold Engine.quit
          dsimp only
          rw [if_neg (by simp [hp])]
        rw [hl, hr]
      rw [hq]
      exact ih ({ e with stack := p :: rest2 }) p rfl hp
    · have hfind : (p :: rest2).find? (fun si => !si.regions.isEmpty) =
          some p := by
        rw [List.find?_cons_of_pos]
        simp [hp]
      rw [hfind]
      have hdrop : quitDrop (cur :: p :: rest2) = cur :: p :: rest2 := by
        simp only [quitDrop]
        rw [if_neg hp]
      have hq : e.quit =
          ({ e with stack := cur :: p :: rest2 } : Engine).pop := by
        unfold Engine.quit
        rw [hstack]
        dsimp only
        rw [if_neg (by simp [hfail]), hdrop]
        rw [if_neg (by simp : ¬ ((cur :: p :: rest2).tail.isEmpty = true))]
      rw [hq]
      refine ⟨?_, ?_, ?_⟩
      · unfold Engine.pop
        dsimp only
        rw [update_stack]
        rfl
      · unfold Engine.pop
        dsimp only
        rw [update_panel_open]
      · unfold Engine.pop
        dsimp only
        rw [update_selection]

def c8Root : StackItem := mkStackItem "" [] [] (-1) true false

def c8X : StackItem :=
  { search := "x", regions := [⟨0,1⟩, ⟨4,5⟩, ⟨8,9⟩], selected := [⟨0,1⟩],
    current_index := 0, forward := true, try_wrapped := false,
    wrapped := false }

def c8XYZ : StackItem :=
  { search := "xyz", regions := [], selected := [],
    current_index := -1, forward := true, try_wrapped := false,
    wrapped := false }

def c8Engine : Engine :=
  { stack := [c8XYZ, c8X, c8Root], point := 0, forward := true, regex := false,
    is_active := true, panel_open := true, selection := [⟨0,0⟩], mark := none,
    hl_find := [⟨0,1⟩, ⟨4,5⟩, ⟨8,9⟩], hl_selected := [⟨0,1⟩],
    last_search := none }

/-- C8 witness: the spec's example session `root(empty) -> "x"(3 matches) ->
"xyz"(0 matches)`: `quit` pops back to the `"x"` state and the session stays
open. -/
theorem quit_failing_pops_to_matching_witness :
    (c8Engine.quit).stack.head? = some c8X ∧
    (c8Engine.quit).panel_open = c8Engine.panel_open ∧
    (c8Engine.quit).selection = c8Engine.selection := by
  have h := quit_failing_pops_to_matching c8Engine c8XYZ [c8X, c8Root]
    rfl rfl
  simpa [c8X, List.find?] using h

/-- C9: matching is case-sensitive exactly when the query contains an
(ASCII) upper-case letter, in literal and regex mode alike, inferred from
the query text alone. -/
theorem case_sensitivity_inferred (regex : Bool) (val : String) :
    ((isearchFlags regex val).ignorecase = false ↔
      ∃ c ∈ val.data, 'A' ≤ c ∧ c ≤ 'Z') ∧
    (isearchFlags regex val).ignorecase =
      (isearchFlags (!regex) val).ignorecase := by
  constructor
  · simp [isearchFlags, containsUpper, List.any_eq_true]
  · rfl

/-- One unfolding step of `growChars`. -/
lemma growChars_eq (regex cs : Bool) (buf sep : List Char) (q : Nat) :
    growChars regex cs buf sep q =
      if h : q < buf.length then
        (if isWordChar buf q sep then
          append_one regex
            (if cs = false then (buf.get ⟨q, h⟩).toLower
              else buf.get ⟨q, h⟩) ++
            growChars regex cs buf sep (q + 1)
        else "")
      else "" := by
  unfold growChars
  cases hf : buf.length - q with
  | zero =>
    have hq : ¬ q < buf.length := by omega
    rw [dif_neg hq]
    rfl
  | succ n =>
    have hq : q < buf.length := by omega
    have hn : buf.length - (q + 1) = n := by omega
    rw [hn, dif_pos hq]
    show growCharsFuel regex cs buf sep q (n + 1) = _
    conv_lhs => rw [growCharsFuel]
    rw [dif_pos hq]

/-- C10 (amended): during append-from-cursor growth in case-insensitive mode
(the existing query has no upper-case letter), the first, unconditionally
appended character is taken from the buffer *verbatim* (only regex-escaped);
each of the subsequently appended word characters is folded to lower case
before being appended. -/
theorem append_growth_folds_tail_only (regex : Bool) (buf sep : List Char)
    (point : Nat) (search : String)
    (hci : containsUpper search = false) (hp : point < buf.length) :
    appendFromCursorQuery regex buf sep point search =
      search ++ append_one regex (buf.get ⟨point, hp⟩) ++
        growChars regex false buf sep (point + 1) ∧
    (∀ q (h : q < buf.length), isWordChar buf q sep = true →
        growChars regex false buf sep q =
          append_one regex ((buf.get ⟨q, h⟩).toLower) ++
            growChars regex false buf sep (q + 1)) ∧
    (∀ q, isWordChar buf q sep = false →
        growChars regex false buf sep q = "") := by
  refine ⟨?_, ?_, ?_⟩
  · unfold appendFromCursorQuery
    dsimp only
    rw [hci, dif_pos hp]
  · intro q h hw
    rw [growChars_eq, dif_pos h, if_pos hw]
    rfl
  · intro q hw
    rw [growChars_eq]
    by_cases h : q < buf.length
    · rw [dif_pos h, if_neg (by simp [hw])]
    · rw [dif_neg h]

/-- C10 witness: growth from `"x"` (case-insensitive) over the buffer
`"FOo"`: the first appended character is the verbatim `'F'`. -/
theorem append_growth_folds_tail_only_witness :
    appendFromCursorQuery false ['F', 'O', 'o'] [] 0 "x" =
      "x" ++ append_one false 'F' ++
        growChars false false ['F', 'O', 'o'] [] 1 :=
  (append_growth_folds_tail_only false ['F', 'O', 'o'] [] 0 "x"
    (by decide) (by decide)).1

/-- C10 counterexample to the claim as stated: with the case-insensitive
query `"x"` and buffer text `"Foo"`, growth yields `"xFoo"` — the first
appended character `'F'` is *not* folded to lower case (and the grown query
has even become case-sensitive), where the claim predicts `"xfoo"`. -/
theorem append_growth_first_char_not_folded :
    containsUpper "x" = false ∧
    appendFromCursorQuery false ['F', 'o', 'o'] [] 0 "x" = "xFoo" ∧
    ("xFoo" : String) ≠ "xfoo" ∧
    containsUpper "xFoo" = true := by decide

end Jove
